import Mathlib

/-
Verification of the GeometricTools pairwise geometric query specializations.

The scalar type T of the source (float or double) is embedded as the real
numbers; an N-dimensional Vector<N, T> is a function Fin N → ℝ.  Each query
class's operator() is translated to a Lean function on the corresponding
structures; the stateful per-axis loop of the point–canonical-box distance
query is translated as a fold over the list of axes with the loop state
(sqrDistance, closest[1]) passed explicitly.
-/

noncomputable section

namespace gte

/-- N-dimensional vector over the real scalar type. -/
abbrev Vector (n : ℕ) := Fin n → ℝ

/-- The dot product of two vectors. -/
def Dot {n : ℕ} (u v : Vector n) : ℝ := ∑ i, u i * v i

/-- A canonical box in nD: center at the origin, axis-aligned, described only
by its per-axis extents (CanonicalBox.h). -/
structure CanonicalBox (n : ℕ) where
  extent : Fin n → ℝ

/-- Result of DCPQuery<T, Vector<N,T>, CanonicalBox<N,T>> (DistPointCanonicalBox.h). -/
structure PointBoxResult (n : ℕ) where
  distance : ℝ
  sqrDistance : ℝ
  closest : Fin 2 → Vector n

/-- The body of the per-axis loop of
DCPQuery<T, Vector<N,T>, CanonicalBox<N,T>>::operator()
(DistPointCanonicalBox.h, lines 50-64).  The loop state is the pair
(result.sqrDistance, result.closest[1]). -/
def pointBoxStep {n : ℕ} (point : Vector n) (box : CanonicalBox n)
    (st : ℝ × Vector n) (i : Fin n) : ℝ × Vector n :=
  if point i < -box.extent i then
    (st.1 + (st.2 i + box.extent i) * (st.2 i + box.extent i),
      Function.update st.2 i (-box.extent i))
  else if box.extent i < point i then
    (st.1 + (st.2 i - box.extent i) * (st.2 i - box.extent i),
      Function.update st.2 i (box.extent i))
  else
    st

/-- DCPQuery<T, Vector<N,T>, CanonicalBox<N,T>>::operator()
(DistPointCanonicalBox.h, lines 43-68): closest[0] and closest[1] start as the
input point, sqrDistance starts at zero, the loop runs over the axes in order,
and finally distance = sqrt(sqrDistance). -/
def distPointCanonicalBox {n : ℕ} (point : Vector n) (box : CanonicalBox n) :
    PointBoxResult n :=
  let st := (List.finRange n).foldl (pointBoxStep point box) ((0 : ℝ), point)
  { distance := Real.sqrt st.1
    sqrDistance := st.1
    closest := ![point, st.2] }

/-- The per-axis clamp of the point into [-extent, extent], as the spec
describes the closest box point. -/
def clampToBox {n : ℕ} (point : Vector n) (box : CanonicalBox n) : Vector n :=
  fun i =>
    if point i < -box.extent i then -box.extent i
    else if box.extent i < point i then box.extent i
    else point i

/-- The squared clamp delta contributed by axis i, as the spec describes the
accumulation into sqrDistance. -/
def boxSqrContrib {n : ℕ} (point : Vector n) (box : CanonicalBox n) (i : Fin n) : ℝ :=
  if point i < -box.extent i then (point i + box.extent i) * (point i + box.extent i)
  else if box.extent i < point i then (point i - box.extent i) * (point i - box.extent i)
  else 0

/-- Result type shared by the Test-intersection (TIQuery) specializations:
a single boolean member "intersect", embedded as a proposition. -/
structure TIResult where
  intersect : Prop

/-- Halfspace3<T> (Halfspace.h): a unit normal and a constant; the halfspace is
the set of points X with Dot(normal, X) ≥ constant. -/
structure Halfspace3 where
  normal : Vector 3
  constant : ℝ

/-- Sphere3<T> (Hypersphere.h): center and radius. -/
structure Sphere3 where
  center : Vector 3
  radius : ℝ

/-- TIQuery<T, Halfspace3<T>, Sphere3<T>>::operator()
(IntrHalfspace3Sphere3.h, lines 34-46). -/
def tiHalfspace3Sphere3 (halfspace : Halfspace3) (sphere : Sphere3) : TIResult :=
  let center := Dot halfspace.normal sphere.center - halfspace.constant
  { intersect := center + sphere.radius ≥ 0 }

/-- OrientedBox3<T> (OrientedBox.h): center, orthonormal axis frame and
per-axis extents. -/
structure OrientedBox3 where
  center : Vector 3
  axis : Fin 3 → Vector 3
  extent : Fin 3 → ℝ

/-- TIQuery<T, Halfspace3<T>, OrientedBox3<T>>::operator()
(IntrHalfspace3OrientedBox3.h, lines 34-52). -/
def tiHalfspace3OrientedBox3 (halfspace : Halfspace3) (box : OrientedBox3) : TIResult :=
  let center := Dot halfspace.normal box.center - halfspace.constant
  let radius :=
    |box.extent 0 * Dot halfspace.normal (box.axis 0)| +
    |box.extent 1 * Dot halfspace.normal (box.axis 1)| +
    |box.extent 2 * Dot halfspace.normal (box.axis 2)|
  { intersect := center + radius ≥ 0 }

/-- Plane3<T>: a unit normal and a constant, the set of points X with
Dot(normal, X) = constant.  Structurally identical to Halfspace3. -/
structure Plane3 where
  normal : Vector 3
  constant : ℝ

/-- Modelled from the spec: the signed distance computed by the point–hyperplane
distance query of DistPointHyperplane.h, which is not among the sources.  Per
the spec's glossary it is the scalar distance from a point to a plane, positive
on the side the plane's unit normal points toward, i.e.
Dot(normal, point) − constant. -/
def signedDistancePointPlane (point : Vector 3) (plane : Plane3) : ℝ :=
  Dot plane.normal point - plane.constant

/-- Modelled from the spec: the unsigned distance member of the point–hyperplane
distance query of DistPointHyperplane.h (not among the sources), the absolute
value of the signed distance. -/
def distancePointPlane (point : Vector 3) (plane : Plane3) : ℝ :=
  |signedDistancePointPlane point plane|

/-- Segment3<T>: two endpoints. -/
structure Segment3 where
  p : Fin 2 → Vector 3

/-- Capsule3<T> (Capsule.h): a segment and a radius. -/
structure Capsule3 where
  segment : Segment3
  radius : ℝ

/-- TIQuery<Real, Plane3<Real>, Capsule3<Real>>::operator()
(unnamed/part_002, lines 76-97). -/
def tiPlane3Capsule3 (plane : Plane3) (capsule : Capsule3) : TIResult :=
  let sdistance0 := signedDistancePointPlane (capsule.segment.p 0) plane
  let sdistance1 := signedDistancePointPlane (capsule.segment.p 1) plane
  if sdistance0 * sdistance1 ≤ 0 then
    { intersect := True }
  else
    { intersect := |sdistance0| ≤ capsule.radius ∨ |sdistance1| ≤ capsule.radius }

/-- Ray<N, Real>: origin and direction. -/
structure Ray (n : ℕ) where
  origin : Vector n
  direction : Vector n

/-- Cone<N, Real>.  Modelled from the spec for the missing Cone.h: per the data
model a cone stores a ray (apex + direction), the squared cosine of the
half-angle, and ordered height bounds. -/
structure Cone (n : ℕ) where
  ray : Ray n
  cosAngleSqr : ℝ
  hmin : ℝ
  hmax : ℝ

/-- Modelled from the spec: Cone<N,Real>::HeightInRange of the missing Cone.h;
the height lies within the cone's ordered height bounds. -/
def Cone.HeightInRange {n : ℕ} (cone : Cone n) (h : ℝ) : Prop :=
  cone.hmin ≤ h ∧ h ≤ cone.hmax

/-- InContainer(point, cone) (unnamed/part_001, lines 15-21): containment of a
point by a cone. -/
def InContainer {n : ℕ} (point : Vector n) (cone : Cone n) : Prop :=
  let diff := point - cone.ray.origin
  let h := Dot cone.ray.direction diff
  cone.HeightInRange h ∧ h * h ≥ cone.cosAngleSqr * Dot diff diff

/-- Ellipsoid3<Real>.  Modelled from the spec for the missing Hyperellipsoid.h:
per the data model an ellipsoid has a center and a symmetric positive-definite
shape matrix M, the surface being xᵗMx = 1 with the center subtracted. -/
structure Ellipsoid3 where
  center : Vector 3
  M : Matrix (Fin 3) (Fin 3) ℝ

/-- Modelled from the spec: Ellipsoid3<Real>::GetMInverse of the missing
Hyperellipsoid.h returns the inverse of the shape matrix M. -/
def Ellipsoid3.GetMInverse (ellipsoid : Ellipsoid3) : Matrix (Fin 3) (Fin 3) ℝ :=
  ellipsoid.M⁻¹

/-- The argument handed to std::sqrt by
TIQuery<Real, Plane3<Real>, Ellipsoid3<Real>>::operator(): the quadratic form
discr = Dot(normal, MInverse * normal) clamped below by zero
(unnamed/part_002, lines 37-38). -/
def tiPlane3Ellipsoid3_sqrtArg (plane : Plane3) (ellipsoid : Ellipsoid3) : ℝ :=
  max (Dot plane.normal (ellipsoid.GetMInverse.mulVec plane.normal)) 0

/-- TIQuery<Real, Plane3<Real>, Ellipsoid3<Real>>::operator()
(unnamed/part_002, lines 32-43). -/
def tiPlane3Ellipsoid3 (plane : Plane3) (ellipsoid : Ellipsoid3) : TIResult :=
  let root := Real.sqrt (tiPlane3Ellipsoid3_sqrtArg plane ellipsoid)
  let distance := distancePointPlane ellipsoid.center plane
  { intersect := distance ≤ root }

/-- Triangle3<T> (Triangle.h): three vertices. -/
structure Triangle3 where
  v : Fin 3 → Vector 3

/-- AlignedBox3<T> (AlignedBox.h, not among the sources): minimum and maximum
corners, with min ≤ max componentwise. -/
structure AlignedBox3 where
  min : Vector 3
  max : Vector 3

/-- Modelled from the spec: AlignedBox3<T>::GetCenteredForm of the missing
AlignedBox.h computes the box center and the extents of the centered
(canonical, extent-only) form: center = (max + min)/2, extent = (max − min)/2. -/
def AlignedBox3.GetCenteredForm (box : AlignedBox3) : Vector 3 × Vector 3 :=
  (fun i => (box.max i + box.min i) / 2, fun i => (box.max i - box.min i) / 2)

/-- Modelled from the spec: the Result type of DCPQuery<T, Triangle3<T>,
CanonicalBox3<T>> (DistTriangle3CanonicalBox3.h, not among the sources), per
the spec's DistanceResult shape: distance, squared distance and the pair of
closest points. -/
structure TriangleBoxResult where
  distance : ℝ
  sqrDistance : ℝ
  closest : Fin 2 → Vector 3

/-- DCPQuery<T, Triangle3<T>, AlignedBox3<T>>::operator()
(second header of the IntrHalfspace3Sphere3.h source file, lines 86-110),
parameterized by the triangle–canonical-box query tbQuery whose implementation
(DistTriangle3CanonicalBox3.h) is not among the sources: translate the
triangle and box so the box has center at the origin, run the canonical-frame
query, then translate the closest points back to the original coordinates. -/
def dcpTriangle3AlignedBox3
    (tbQuery : Triangle3 → CanonicalBox 3 → TriangleBoxResult)
    (triangle : Triangle3) (box : AlignedBox3) : TriangleBoxResult :=
  let boxCenter := box.GetCenteredForm.1
  let cbox : CanonicalBox 3 := ⟨box.GetCenteredForm.2⟩
  let xfrmTriangle : Triangle3 := ⟨fun i => triangle.v i - boxCenter⟩
  let result := tbQuery xfrmTriangle cbox
  { result with closest := fun j => result.closest j + boxCenter }

/-- The spec's toCanonical transform for a triangle (spec sections 4.3(b) and
9): translate the triangle by minus the box center. -/
def toCanonicalTriangle (triangle : Triangle3) (boxCenter : Vector 3) : Triangle3 :=
  ⟨fun i => triangle.v i - boxCenter⟩

/-- The spec's fromCanonical transform for a distance result (spec sections
4.3(b) and 9): translate both closest points back into the original frame. -/
def fromCanonicalResult (result : TriangleBoxResult) (boxCenter : Vector 3) :
    TriangleBoxResult :=
  { result with closest := fun j => result.closest j + boxCenter }

/-- The spec's canonical-frame reduction of the triangle–aligned-box distance
query, stated from the spec's words: run the canonical query on the translated
triangle and the box's centered (extent-only) form, then transform the result
back. -/
def triangleAlignedBoxReductionSpec
    (tbQuery : Triangle3 → CanonicalBox 3 → TriangleBoxResult)
    (triangle : Triangle3) (box : AlignedBox3) : TriangleBoxResult :=
  fromCanonicalResult
    (tbQuery (toCanonicalTriangle triangle box.GetCenteredForm.1)
      ⟨box.GetCenteredForm.2⟩)
    box.GetCenteredForm.1

end gte

end

namespace gte

namespace UniqueVerticesTriangles

/-- The map.find step of UniqueVerticesTriangles::RemoveDuplicates: the index
assigned to the first vertex in the pool that is equivalent to v under the
strict order of the vertex type (neither compares less than the other), if
any.  The pool is kept in index order. -/
def findEquivIdx {V : Type} [LinearOrder V] (v : V) : List V → Option ℕ
  | [] => none
  | w :: ws =>
    if ¬ w < v ∧ ¬ v < w then some 0
    else (findEquivIdx v ws).map (· + 1)

/-- The loop of UniqueVerticesTriangles::RemoveDuplicates (the source file of
IntrLine3Ellipsoid3.cpp, second part, lines 282-317): one iteration per input
vertex, carrying the pool of unique vertices built so far; a vertex equivalent
to an earlier one is remapped to the index of its first occurrence, a new
vertex is appended to the pool with index equal to the current pool size. -/
def removeDuplicatesGo {V : Type} [LinearOrder V] (pool : List V) :
    List V → List V × List ℕ
  | [] => (pool, [])
  | v :: rest =>
    match findEquivIdx v pool with
    | some j =>
      let r := removeDuplicatesGo pool rest
      (r.1, j :: r.2)
    | none =>
      let r := removeDuplicatesGo (pool ++ [v]) rest
      (r.1, pool.length :: r.2)

/-- UniqueVerticesTriangles::RemoveDuplicates: the deduplicated vertex pool and
the input-to-output index mapping. -/
def removeDuplicates {V : Type} [LinearOrder V] (inVertices : List V) :
    List V × List ℕ :=
  removeDuplicatesGo [] inVertices

/-- UniqueVerticesTriangles::GenerateIndexedTriangles (lines 73-84): asserts
that the input size is a positive multiple of 3 (LogAssert, embedded as the
Option guard), then delegates to RemoveDuplicates. -/
def generateIndexedTriangles {V : Type} [LinearOrder V] (inVertices : List V) :
    Option (List V × List ℕ) :=
  if inVertices.length > 0 ∧ inVertices.length % 3 = 0 then
    some (removeDuplicates inVertices)
  else none

end UniqueVerticesTriangles

end gte

namespace gte

theorem pointBoxStep_fst {n : ℕ} (point : Vector n) (box : CanonicalBox n)
    (st : ℝ × Vector n) (i : Fin n) (h : st.2 i = point i) :
    (pointBoxStep point box st i).1 = st.1 + boxSqrContrib point box i := by
  unfold pointBoxStep boxSqrContrib
  split_ifs <;> simp [h]

theorem pointBoxStep_snd_self {n : ℕ} (point : Vector n) (box : CanonicalBox n)
    (st : ℝ × Vector n) (i : Fin n) (h : st.2 i = point i) :
    (pointBoxStep point box st i).2 i = clampToBox point box i := by
  unfold pointBoxStep clampToBox
  split_ifs <;> simp [h]

theorem pointBoxStep_snd_ne {n : ℕ} (point : Vector n) (box : CanonicalBox n)
    (st : ℝ × Vector n) (i : Fin n) (j : Fin n) (hj : j ≠ i) :
    (pointBoxStep point box st i).2 j = st.2 j := by
  unfold pointBoxStep
  split_ifs <;> simp [Function.update_noteq hj]

theorem foldl_pointBoxStep {n : ℕ} (point : Vector n) (box : CanonicalBox n) :
    ∀ (l : List (Fin n)), l.Nodup →
      ∀ st : ℝ × Vector n, (∀ i ∈ l, st.2 i = point i) →
      (l.foldl (pointBoxStep point box) st).1
          = st.1 + (l.map (boxSqrContrib point box)).sum
      ∧ ∀ j, (l.foldl (pointBoxStep point box) st).2 j
          = if j ∈ l then clampToBox point box j else st.2 j := by
  intro l
  induction l with
  | nil => intro _ st _; simp
  | cons i t ih =>
    intro hnd st hst
    obtain ⟨hit, hts⟩ := List.nodup_cons.mp hnd
    have hsti : st.2 i = point i := hst i (List.mem_cons_self i t)
    have hstep : ∀ j ∈ t, (pointBoxStep point box st i).2 j = point j := by
      intro j hj
      have hji : j ≠ i := fun he => hit (he ▸ hj)
      rw [pointBoxStep_snd_ne point box st i j hji]
      exact hst j (List.mem_cons_of_mem i hj)
    obtain ⟨ih1, ih2⟩ := ih hts (pointBoxStep point box st i) hstep
    constructor
    · rw [List.foldl_cons, ih1, pointBoxStep_fst point box st i hsti]
      simp only [List.map_cons, List.sum_cons]
      ring
    · intro j
      rw [List.foldl_cons, ih2 j]
      by_cases hjt : j ∈ t
      · simp [hjt, List.mem_cons]
      · by_cases hji : j = i
        · subst hji
          simp [hjt, pointBoxStep_snd_self point box st j hsti]
        · simp [hjt, hji, pointBoxStep_snd_ne point box st i j hji]

theorem distPointCanonicalBox_closed {n : ℕ} (point : Vector n) (box : CanonicalBox n) :
    (distPointCanonicalBox point box).closest 0 = point
  ∧ (distPointCanonicalBox point box).closest 1 = clampToBox point box
  ∧ (distPointCanonicalBox point box).sqrDistance = ∑ i, boxSqrContrib point box i
  ∧ (distPointCanonicalBox point box).distance
      = Real.sqrt (distPointCanonicalBox point box).sqrDistance := by
  have hfold := foldl_pointBoxStep point box (List.finRange n)
    (List.nodup_finRange n) ((0 : ℝ), point) (fun _ _ => rfl)
  obtain ⟨h1, h2⟩ := hfold
  refine ⟨rfl, ?_, ?_, rfl⟩
  · funext j
    have := h2 j
    simp only [List.mem_finRange, if_true] at this
    simpa [distPointCanonicalBox] using this
  · have hsum : ((List.finRange n).map (boxSqrContrib point box)).sum
        = ∑ i, boxSqrContrib point box i := by
      rw [← List.ofFn_eq_map, List.sum_ofFn]
    simpa [distPointCanonicalBox, hsum] using h1

/-- Claim C1: for every point P and canonical box with extents E in nD, the
Distance query computes, independently per axis i, a clamp of P[i] into
[-E[i], E[i]] whenever P[i] lies outside that interval, accumulates the squared
clamp delta into sqrDistance, returns the clamped coordinates as the closest box
point (closest[1]), and returns distance = sqrt(sqrDistance); in particular for
extents (2,2,2) and point (5,0,0) the closest box point is (2,0,0) and the
squared distance is 9. -/
theorem distPointCanonicalBox_perAxis_spec :
    (∀ (n : ℕ) (point : Vector n) (box : CanonicalBox n),
      (distPointCanonicalBox point box).closest 1 = clampToBox point box
      ∧ (distPointCanonicalBox point box).sqrDistance = ∑ i, boxSqrContrib point box i
      ∧ (distPointCanonicalBox point box).distance
          = Real.sqrt (distPointCanonicalBox point box).sqrDistance)
  ∧ (distPointCanonicalBox ![5, 0, 0] ⟨![2, 2, 2]⟩).closest 1 = ![2, 0, 0]
  ∧ (distPointCanonicalBox ![5, 0, 0] ⟨![2, 2, 2]⟩).sqrDistance = 9 := by
  have hgen : ∀ (n : ℕ) (point : Vector n) (box : CanonicalBox n),
      (distPointCanonicalBox point box).closest 1 = clampToBox point box
      ∧ (distPointCanonicalBox point box).sqrDistance = ∑ i, boxSqrContrib point box i
      ∧ (distPointCanonicalBox point box).distance
          = Real.sqrt (distPointCanonicalBox point box).sqrDistance := by
    intro n point box
    obtain ⟨_, h2, h3, h4⟩ := distPointCanonicalBox_closed point box
    exact ⟨h2, h3, h4⟩
  refine ⟨hgen, ?_, ?_⟩
  · rw [(hgen 3 ![5, 0, 0] ⟨![2, 2, 2]⟩).1]
    funext i
    fin_cases i <;> simp [clampToBox] <;> norm_num
  · rw [(hgen 3 ![5, 0, 0] ⟨![2, 2, 2]⟩).2.1, Fin.sum_univ_three]
    simp only [boxSqrContrib]
    norm_num

theorem scalar_clamp_min (e x q : ℝ) (h1 : -e ≤ q) (h2 : q ≤ e) :
    (x - (if x < -e then -e else if e < x then e else x)) ^ 2 ≤ (x - q) ^ 2 := by
  split_ifs with ha hb
  · nlinarith [mul_nonneg (by linarith : (0 : ℝ) ≤ q + e)
      (by linarith : (0 : ℝ) ≤ q - e - 2 * x)]
  · nlinarith [mul_nonneg (by linarith : (0 : ℝ) ≤ e - q)
      (by linarith : (0 : ℝ) ≤ 2 * x - q - e)]
  · simpa using sq_nonneg (x - q)

theorem boxSqrContrib_eq_sq {n : ℕ} (point : Vector n) (box : CanonicalBox n) (i : Fin n) :
    boxSqrContrib point box i = (point i - clampToBox point box i) ^ 2 := by
  unfold boxSqrContrib clampToBox
  split_ifs <;> ring

/-- Claim C10: for every point P and every canonical box with non-negative
extents, the point–CanonicalBox Distance query returns a Result in which
closest[0] equals the input point P unchanged, closest[1] lies inside the box
(|closest[1][i]| ≤ extent[i] for every axis i), sqrDistance equals the squared
norm of P − closest[1], and no point of the box is strictly closer to P than
closest[1] (the returned pair attains the minimum distance). -/
theorem distPointCanonicalBox_correct {n : ℕ} (point : Vector n) (box : CanonicalBox n)
    (hext : ∀ i, 0 ≤ box.extent i) :
    (distPointCanonicalBox point box).closest 0 = point
  ∧ (∀ i, |(distPointCanonicalBox point box).closest 1 i| ≤ box.extent i)
  ∧ (distPointCanonicalBox point box).sqrDistance
      = ∑ i, (point i - (distPointCanonicalBox point box).closest 1 i) ^ 2
  ∧ ∀ q : Vector n, (∀ i, |q i| ≤ box.extent i) →
      (distPointCanonicalBox point box).sqrDistance ≤ ∑ i, (point i - q i) ^ 2 := by
  obtain ⟨h1, h2, h3, _⟩ := distPointCanonicalBox_closed point box
  refine ⟨h1, ?_, ?_, ?_⟩
  · intro i
    rw [h2]
    unfold clampToBox
    split_ifs with ha hb
    · rw [abs_neg, abs_of_nonneg (hext i)]
    · rw [abs_of_nonneg (hext i)]
    · exact abs_le.mpr ⟨by linarith, by linarith⟩
  · rw [h2, h3]
    exact Finset.sum_congr rfl fun i _ => boxSqrContrib_eq_sq point box i
  · intro q hq
    rw [h3]
    refine Finset.sum_le_sum fun i _ => ?_
    rw [boxSqrContrib_eq_sq point box i]
    obtain ⟨hl, hr⟩ := abs_le.mp (hq i)
    have := scalar_clamp_min (box.extent i) (point i) (q i) hl hr
    simpa [clampToBox] using this

/-- Witness for C10 at the concrete point (5,0,0) and extents (2,2,2). -/
theorem distPointCanonicalBox_correct_witness :
    (distPointCanonicalBox ![5, 0, 0] ⟨![2, 2, 2]⟩).closest 0 = ![5, 0, 0]
  ∧ (∀ i, |(distPointCanonicalBox ![5, 0, 0] (⟨![2, 2, 2]⟩ : CanonicalBox 3)).closest 1 i|
        ≤ (⟨![2, 2, 2]⟩ : CanonicalBox 3).extent i)
  ∧ (distPointCanonicalBox ![5, 0, 0] (⟨![2, 2, 2]⟩ : CanonicalBox 3)).sqrDistance
      = ∑ i, ((![5, 0, 0] : Vector 3) i
          - (distPointCanonicalBox ![5, 0, 0] (⟨![2, 2, 2]⟩ : CanonicalBox 3)).closest 1 i) ^ 2
  ∧ ∀ q : Vector 3, (∀ i, |q i| ≤ (⟨![2, 2, 2]⟩ : CanonicalBox 3).extent i) →
      (distPointCanonicalBox ![5, 0, 0] (⟨![2, 2, 2]⟩ : CanonicalBox 3)).sqrDistance
        ≤ ∑ i, ((![5, 0, 0] : Vector 3) i - q i) ^ 2 :=
  distPointCanonicalBox_correct ![5, 0, 0] ⟨![2, 2, 2]⟩
    (by intro i; fin_cases i <;> norm_num)

/-- Claim C2: for every Halfspace3 (unit normal, offset) and every Sphere3
(center, radius ≥ 0), the Test query returns intersect = true if and only if
dot(normal, center) − offset + radius ≥ 0; in particular for halfspace normal
(1,0,0) with offset 0 and sphere center (-5,0,0) with radius 2, it returns
intersect = false. -/
theorem tiHalfspace3Sphere3_spec (halfspace : Halfspace3) (sphere : Sphere3)
    (_hn : Dot halfspace.normal halfspace.normal = 1) (_hr : 0 ≤ sphere.radius) :
    ((tiHalfspace3Sphere3 halfspace sphere).intersect ↔
      Dot halfspace.normal sphere.center - halfspace.constant + sphere.radius ≥ 0)
  ∧ ¬ (tiHalfspace3Sphere3 ⟨![1, 0, 0], 0⟩ ⟨![-5, 0, 0], 2⟩).intersect := by
  refine ⟨Iff.rfl, ?_⟩
  simp only [tiHalfspace3Sphere3, Dot, Fin.sum_univ_three]
  norm_num

/-- Witness for C2 at the halfspace with normal (1,0,0), offset 0 and the
sphere with center (-5,0,0), radius 2. -/
theorem tiHalfspace3Sphere3_spec_witness :
    ((tiHalfspace3Sphere3 ⟨![1, 0, 0], 0⟩ ⟨![-5, 0, 0], 2⟩).intersect ↔
      Dot ![1, 0, 0] ![-5, 0, 0] - 0 + 2 ≥ 0)
  ∧ ¬ (tiHalfspace3Sphere3 ⟨![1, 0, 0], 0⟩ ⟨![-5, 0, 0], 2⟩).intersect :=
  tiHalfspace3Sphere3_spec ⟨![1, 0, 0], 0⟩ ⟨![-5, 0, 0], 2⟩
    (by simp only [Dot, Fin.sum_univ_three]; norm_num) (by norm_num)

/-- Claim C3: for every Halfspace3 and every OrientedBox3 with orthonormal axes
and non-negative extents, the Test query returns intersect = true if and only
if (dot(normal, center) − offset) + r ≥ 0, where r is the sum over the three
box axes of |extent[i] · dot(normal, axis[i])| (the box's support radius along
the halfspace normal). -/
theorem tiHalfspace3OrientedBox3_spec (halfspace : Halfspace3) (box : OrientedBox3)
    (_horth : ∀ i j, Dot (box.axis i) (box.axis j) = if i = j then 1 else 0)
    (_hext : ∀ i, 0 ≤ box.extent i) :
    (tiHalfspace3OrientedBox3 halfspace box).intersect ↔
      Dot halfspace.normal box.center - halfspace.constant
        + (∑ i, |box.extent i * Dot halfspace.normal (box.axis i)|) ≥ 0 := by
  unfold tiHalfspace3OrientedBox3
  rw [Fin.sum_univ_three]

/-- Witness for C3 at the halfspace with normal (1,0,0), offset 0 and the
axis-aligned unit box centered at the origin. -/
theorem tiHalfspace3OrientedBox3_spec_witness :
    (tiHalfspace3OrientedBox3 ⟨![1, 0, 0], 0⟩
        ⟨![0, 0, 0], ![![1, 0, 0], ![0, 1, 0], ![0, 0, 1]], ![1, 1, 1]⟩).intersect ↔
      Dot ![1, 0, 0] ![0, 0, 0] - 0
        + (∑ i, |(![1, 1, 1] : Fin 3 → ℝ) i
            * Dot ![1, 0, 0] (![![1, 0, 0], ![0, 1, 0], ![0, 0, 1]] i)|) ≥ 0 :=
  tiHalfspace3OrientedBox3_spec ⟨![1, 0, 0], 0⟩
    ⟨![0, 0, 0], ![![1, 0, 0], ![0, 1, 0], ![0, 0, 1]], ![1, 1, 1]⟩
    (by
      intro i j
      fin_cases i <;> fin_cases j <;>
        simp only [Dot, Fin.sum_univ_three, Fin.ext_iff] <;> norm_num [Fin.ext_iff])
    (by intro i; fin_cases i <;> norm_num)

/-- Claim C4: for every Plane3 and every Capsule3 (segment endpoints p0, p1,
radius ≥ 0), the Test query returns intersect = true if the product of the
plane's signed distances to p0 and p1 is ≤ 0 (endpoints straddle the plane or
touch it), and otherwise returns intersect = true if and only if
|signedDistance(p0)| ≤ radius or |signedDistance(p1)| ≤ radius; in particular
for plane normal (0,0,1) offset 0 and capsule endpoints (0,0,-1) and (0,0,1)
with radius 0.1 it returns intersect = true. -/
theorem tiPlane3Capsule3_spec (plane : Plane3) (capsule : Capsule3)
    (_hr : 0 ≤ capsule.radius) :
    (signedDistancePointPlane (capsule.segment.p 0) plane
        * signedDistancePointPlane (capsule.segment.p 1) plane ≤ 0 →
      (tiPlane3Capsule3 plane capsule).intersect)
  ∧ (¬ signedDistancePointPlane (capsule.segment.p 0) plane
        * signedDistancePointPlane (capsule.segment.p 1) plane ≤ 0 →
      ((tiPlane3Capsule3 plane capsule).intersect ↔
        |signedDistancePointPlane (capsule.segment.p 0) plane| ≤ capsule.radius
        ∨ |signedDistancePointPlane (capsule.segment.p 1) plane| ≤ capsule.radius))
  ∧ (tiPlane3Capsule3 ⟨![0, 0, 1], 0⟩
      ⟨⟨![![0, 0, -1], ![0, 0, 1]]⟩, 1 / 10⟩).intersect := by
  refine ⟨?_, ?_, ?_⟩
  · intro h
    simp [tiPlane3Capsule3, h]
  · intro h
    simp [tiPlane3Capsule3, h]
  · have hprod : signedDistancePointPlane ![0, 0, -1] ⟨![0, 0, 1], 0⟩
        * signedDistancePointPlane ![0, 0, 1] ⟨![0, 0, 1], 0⟩ ≤ 0 := by
      simp only [signedDistancePointPlane, Dot, Fin.sum_univ_three]
      norm_num
    simp [tiPlane3Capsule3, hprod]

/-- Witness for C4 at the plane with normal (0,0,1), offset 0 and the capsule
with endpoints (0,0,-1), (0,0,1) and radius 1/10. -/
theorem tiPlane3Capsule3_spec_witness :
    (signedDistancePointPlane ![0, 0, -1] ⟨![0, 0, 1], 0⟩
        * signedDistancePointPlane ![0, 0, 1] ⟨![0, 0, 1], 0⟩ ≤ 0 →
      (tiPlane3Capsule3 ⟨![0, 0, 1], 0⟩
        ⟨⟨![![0, 0, -1], ![0, 0, 1]]⟩, 1 / 10⟩).intersect)
  ∧ (¬ signedDistancePointPlane ![0, 0, -1] ⟨![0, 0, 1], 0⟩
        * signedDistancePointPlane ![0, 0, 1] ⟨![0, 0, 1], 0⟩ ≤ 0 →
      ((tiPlane3Capsule3 ⟨![0, 0, 1], 0⟩
          ⟨⟨![![0, 0, -1], ![0, 0, 1]]⟩, 1 / 10⟩).intersect ↔
        |signedDistancePointPlane ![0, 0, -1] ⟨![0, 0, 1], 0⟩| ≤ 1 / 10
        ∨ |signedDistancePointPlane ![0, 0, 1] ⟨![0, 0, 1], 0⟩| ≤ 1 / 10))
  ∧ (tiPlane3Capsule3 ⟨![0, 0, 1], 0⟩
      ⟨⟨![![0, 0, -1], ![0, 0, 1]]⟩, 1 / 10⟩).intersect :=
  tiPlane3Capsule3_spec ⟨![0, 0, 1], 0⟩
    ⟨⟨![![0, 0, -1], ![0, 0, 1]]⟩, 1 / 10⟩ (by norm_num)

/-- Claim C5: for every N and every point and cone (apex ray, cosAngleSqr in
(0,1], ordered height bounds), InContainer returns true if and only if the
projection h = dot(direction, point − apex) lies within the cone's height range
AND h² ≥ cosAngleSqr · ‖point − apex‖²; the boundary case h² exactly equal to
cosAngleSqr · ‖point − apex‖² counts as contained, so for a cone with apex at
the origin, axis (0,0,1), cosAngleSqr 0.5, height bounds [0,10], the point
(1,0,1) is contained. -/
theorem inContainer_spec :
    (∀ (n : ℕ) (point : Vector n) (cone : Cone n),
      0 < cone.cosAngleSqr → cone.cosAngleSqr ≤ 1 → cone.hmin ≤ cone.hmax →
      (InContainer point cone ↔
        cone.HeightInRange (Dot cone.ray.direction (point - cone.ray.origin))
        ∧ (Dot cone.ray.direction (point - cone.ray.origin)) ^ 2
            ≥ cone.cosAngleSqr
              * Dot (point - cone.ray.origin) (point - cone.ray.origin)))
  ∧ InContainer ![1, 0, 1] ⟨⟨![0, 0, 0], ![0, 0, 1]⟩, 1 / 2, 0, 10⟩ := by
  constructor
  · intro n point cone _ _ _
    unfold InContainer
    rw [sq]
  · unfold InContainer Cone.HeightInRange
    constructor
    · constructor <;>
        · simp only [Dot, Fin.sum_univ_three, Pi.sub_apply]
          norm_num
    · simp only [Dot, Fin.sum_univ_three, Pi.sub_apply]
      norm_num

/-- Witness for C5 at the cone with apex at the origin, axis (0,0,1),
cosAngleSqr 1/2 and height bounds [0,10], and the point (1,0,1). -/
theorem inContainer_spec_witness :
    (InContainer ![1, 0, 1] (⟨⟨![0, 0, 0], ![0, 0, 1]⟩, 1 / 2, 0, 10⟩ : Cone 3) ↔
      (⟨⟨![0, 0, 0], ![0, 0, 1]⟩, 1 / 2, 0, 10⟩ : Cone 3).HeightInRange
          (Dot ![0, 0, 1] (![1, 0, 1] - ![0, 0, 0]))
      ∧ (Dot ![0, 0, 1] ((![1, 0, 1] : Vector 3) - ![0, 0, 0])) ^ 2
          ≥ 1 / 2 * Dot ((![1, 0, 1] : Vector 3) - ![0, 0, 0])
              ((![1, 0, 1] : Vector 3) - ![0, 0, 0]))
  ∧ InContainer ![1, 0, 1] ⟨⟨![0, 0, 0], ![0, 0, 1]⟩, 1 / 2, 0, 10⟩ :=
  ⟨inContainer_spec.1 3 ![1, 0, 1] ⟨⟨![0, 0, 0], ![0, 0, 1]⟩, 1 / 2, 0, 10⟩
      (by norm_num) (by norm_num) (by norm_num),
    inContainer_spec.2⟩

/-- Claim C6: for every Plane3 (unit normal) and every Ellipsoid3 with
symmetric positive-definite shape matrix M, the Test query returns intersect =
true if and only if the unsigned distance from the ellipsoid center to the
plane is ≤ sqrt(max(normalᵗ M⁻¹ normal, 0)); the argument of the square root
is clamped to zero first, so sqrt is never applied to a negative value for any
input, even if normalᵗ M⁻¹ normal evaluates negative. -/
theorem tiPlane3Ellipsoid3_spec :
    (∀ (plane : Plane3) (ellipsoid : Ellipsoid3),
      Dot plane.normal plane.normal = 1 →
      ellipsoid.M.IsSymm →
      (∀ x : Vector 3, x ≠ 0 → 0 < Dot x (ellipsoid.M.mulVec x)) →
      ((tiPlane3Ellipsoid3 plane ellipsoid).intersect ↔
        distancePointPlane ellipsoid.center plane
          ≤ Real.sqrt
              (max (Dot plane.normal (ellipsoid.GetMInverse.mulVec plane.normal)) 0)))
  ∧ ∀ (plane : Plane3) (ellipsoid : Ellipsoid3),
      0 ≤ tiPlane3Ellipsoid3_sqrtArg plane ellipsoid := by
  constructor
  · intro plane ellipsoid _ _ _
    exact Iff.rfl
  · intro plane ellipsoid
    exact le_max_right _ _

/-- Witness for C6 at the plane with normal (1,0,0), offset 0 and the unit
sphere as an ellipsoid (center at the origin, shape matrix the identity). -/
theorem tiPlane3Ellipsoid3_spec_witness :
    ((tiPlane3Ellipsoid3 ⟨![1, 0, 0], 0⟩ ⟨![0, 0, 0], 1⟩).intersect ↔
      distancePointPlane ![0, 0, 0] ⟨![1, 0, 0], 0⟩
        ≤ Real.sqrt
            (max (Dot ![1, 0, 0]
              ((⟨![0, 0, 0], 1⟩ : Ellipsoid3).GetMInverse.mulVec ![1, 0, 0])) 0))
  ∧ 0 ≤ tiPlane3Ellipsoid3_sqrtArg ⟨![1, 0, 0], 0⟩ ⟨![0, 0, 0], 1⟩ :=
  ⟨tiPlane3Ellipsoid3_spec.1 ⟨![1, 0, 0], 0⟩ ⟨![0, 0, 0], 1⟩
      (by simp only [Dot, Fin.sum_univ_three]; norm_num)
      (by simp [Matrix.IsSymm])
      (by
        intro x hx
        rw [Matrix.one_mulVec]
        obtain ⟨i, hi⟩ := Function.ne_iff.mp hx
        refine Finset.sum_pos' (fun j _ => mul_self_nonneg (x j)) ?_
        exact ⟨i, Finset.mem_univ i, mul_self_pos.mpr hi⟩),
    tiPlane3Ellipsoid3_spec.2 ⟨![1, 0, 0], 0⟩ ⟨![0, 0, 0], 1⟩⟩

/-- Claim C7: every Test-kind query treats its primitives as closed sets: an
input configuration lying exactly on the decision boundary reports
intersecting/contained == true — specifically, Halfspace3–Sphere3 with
dot(normal,center) − offset + radius exactly 0 returns intersect = true, cone
containment with h² exactly equal to cosAngleSqr·‖diff‖² (and h in the height
range) returns true, and Plane3–Capsule3 with an endpoint's signed distance
exactly 0, or an endpoint's absolute signed distance exactly equal to the
radius, returns intersect = true. -/
theorem closedBoundary_spec :
    (∀ (halfspace : Halfspace3) (sphere : Sphere3),
        Dot halfspace.normal sphere.center - halfspace.constant + sphere.radius = 0 →
        (tiHalfspace3Sphere3 halfspace sphere).intersect)
  ∧ (∀ (n : ℕ) (point : Vector n) (cone : Cone n),
        cone.HeightInRange (Dot cone.ray.direction (point - cone.ray.origin)) →
        (Dot cone.ray.direction (point - cone.ray.origin)) ^ 2
          = cone.cosAngleSqr * Dot (point - cone.ray.origin) (point - cone.ray.origin) →
        InContainer point cone)
  ∧ (∀ (plane : Plane3) (capsule : Capsule3) (k : Fin 2),
        signedDistancePointPlane (capsule.segment.p k) plane = 0 →
        (tiPlane3Capsule3 plane capsule).intersect)
  ∧ (∀ (plane : Plane3) (capsule : Capsule3) (k : Fin 2),
        |signedDistancePointPlane (capsule.segment.p k) plane| = capsule.radius →
        (tiPlane3Capsule3 plane capsule).intersect) := by
  refine ⟨?_, ?_, ?_, ?_⟩
  · intro halfspace sphere h
    exact h.ge
  · intro n point cone hrange heq
    refine ⟨hrange, ?_⟩
    rw [← sq]
    exact heq.ge
  · intro plane capsule k h
    have hk : k = 0 ∨ k = 1 := by
      fin_cases k
      · exact Or.inl rfl
      · exact Or.inr rfl
    have hprod : signedDistancePointPlane (capsule.segment.p 0) plane
        * signedDistancePointPlane (capsule.segment.p 1) plane ≤ 0 := by
      rcases hk with hk | hk <;> subst hk
      · rw [h, zero_mul]
      · rw [h, mul_zero]
    simp [tiPlane3Capsule3, hprod]
  · intro plane capsule k h
    have hk : k = 0 ∨ k = 1 := by
      fin_cases k
      · exact Or.inl rfl
      · exact Or.inr rfl
    by_cases hprod : signedDistancePointPlane (capsule.segment.p 0) plane
        * signedDistancePointPlane (capsule.segment.p 1) plane ≤ 0
    · simp [tiPlane3Capsule3, hprod]
    · simp only [tiPlane3Capsule3, if_neg hprod]
      rcases hk with hk | hk <;> subst hk
      · exact Or.inl h.le
      · exact Or.inr h.le

/-- Witness for C7: a sphere tangent to the halfspace boundary from outside, a
point on the cone's lateral boundary, a capsule endpoint on the plane, and a
capsule endpoint sphere tangent to the plane. -/
theorem closedBoundary_spec_witness :
    (tiHalfspace3Sphere3 ⟨![1, 0, 0], 0⟩ ⟨![-2, 0, 0], 2⟩).intersect
  ∧ InContainer ![1, 0, 1] ⟨⟨![0, 0, 0], ![0, 0, 1]⟩, 1 / 2, 0, 10⟩
  ∧ (tiPlane3Capsule3 ⟨![0, 0, 1], 0⟩ ⟨⟨![![0, 0, 0], ![0, 0, 5]]⟩, 1⟩).intersect
  ∧ (tiPlane3Capsule3 ⟨![0, 0, 1], 0⟩ ⟨⟨![![0, 0, 1], ![0, 0, 2]]⟩, 1⟩).intersect :=
  ⟨closedBoundary_spec.1 ⟨![1, 0, 0], 0⟩ ⟨![-2, 0, 0], 2⟩
      (by simp only [Dot, Fin.sum_univ_three]; norm_num),
    closedBoundary_spec.2.1 3 ![1, 0, 1] ⟨⟨![0, 0, 0], ![0, 0, 1]⟩, 1 / 2, 0, 10⟩
      (by
        constructor <;>
          · simp only [Cone.HeightInRange, Dot, Fin.sum_univ_three, Pi.sub_apply]
            norm_num)
      (by simp only [Dot, Fin.sum_univ_three, Pi.sub_apply]; norm_num),
    closedBoundary_spec.2.2.1 ⟨![0, 0, 1], 0⟩ ⟨⟨![![0, 0, 0], ![0, 0, 5]]⟩, 1⟩ 0
      (by simp only [signedDistancePointPlane, Dot, Fin.sum_univ_three]; norm_num),
    closedBoundary_spec.2.2.2 ⟨![0, 0, 1], 0⟩ ⟨⟨![![0, 0, 1], ![0, 0, 2]]⟩, 1⟩ 0
      (by simp only [signedDistancePointPlane, Dot, Fin.sum_univ_three]; norm_num)⟩

/-- Claim C8: the Triangle3–AlignedBox3 Distance query equals the
canonical-frame reduction of the Triangle3–CanonicalBox3 Distance query: for
every triangle and aligned box, its distance and sqrDistance equal those
returned by the canonical query applied to the triangle translated by minus
the box center and the box's centered (extent-only) form, and each of its two
closest points equals the corresponding canonical-frame closest point plus the
box center. -/
theorem dcpTriangle3AlignedBox3_refines
    (tbQuery : Triangle3 → CanonicalBox 3 → TriangleBoxResult)
    (triangle : Triangle3) (box : AlignedBox3) :
    dcpTriangle3AlignedBox3 tbQuery triangle box
      = triangleAlignedBoxReductionSpec tbQuery triangle box
  ∧ (dcpTriangle3AlignedBox3 tbQuery triangle box).distance
      = (tbQuery (toCanonicalTriangle triangle box.GetCenteredForm.1)
          ⟨box.GetCenteredForm.2⟩).distance
  ∧ (dcpTriangle3AlignedBox3 tbQuery triangle box).sqrDistance
      = (tbQuery (toCanonicalTriangle triangle box.GetCenteredForm.1)
          ⟨box.GetCenteredForm.2⟩).sqrDistance
  ∧ ∀ j, (dcpTriangle3AlignedBox3 tbQuery triangle box).closest j
      = (tbQuery (toCanonicalTriangle triangle box.GetCenteredForm.1)
          ⟨box.GetCenteredForm.2⟩).closest j + box.GetCenteredForm.1 :=
  ⟨rfl, rfl, rfl, fun _ => rfl⟩

namespace UniqueVerticesTriangles

theorem equiv_iff_eq {V : Type} [LinearOrder V] (v w : V) :
    (¬ w < v ∧ ¬ v < w) ↔ w = v := by
  constructor
  · rintro ⟨h1, h2⟩
    exact le_antisymm (not_lt.mp h2) (not_lt.mp h1)
  · rintro rfl
    exact ⟨lt_irrefl _, lt_irrefl _⟩

theorem findEquivIdx_none {V : Type} [LinearOrder V] (v : V) (l : List V) :
    findEquivIdx v l = none ↔ v ∉ l := by
  induction l with
  | nil => simp [findEquivIdx]
  | cons w ws ih =>
    simp only [findEquivIdx]
    by_cases h : ¬ w < v ∧ ¬ v < w
    · have hw : w = v := (equiv_iff_eq v w).mp h
      subst hw
      simp
    · have hw : w ≠ v := fun he => h ((equiv_iff_eq v w).mpr he)
      rw [if_neg h, Option.map_eq_none', ih]
      simp only [List.mem_cons, not_or]
      exact ⟨fun h2 => ⟨fun he => hw he.symm, h2⟩, fun h2 => h2.2⟩

theorem findEquivIdx_some {V : Type} [LinearOrder V] (v : V) :
    ∀ (l : List V) (j : ℕ), findEquivIdx v l = some j →
      ∃ h : j < l.length, l.get ⟨j, h⟩ = v := by
  intro l
  induction l with
  | nil => intro j h; simp [findEquivIdx] at h
  | cons w ws ih =>
    intro j h
    simp only [findEquivIdx] at h
    by_cases hc : ¬ w < v ∧ ¬ v < w
    · rw [if_pos hc] at h
      obtain rfl : (0 : ℕ) = j := Option.some_inj.mp h
      exact ⟨Nat.succ_pos _, (equiv_iff_eq v w).mp hc⟩
    · rw [if_neg hc] at h
      obtain ⟨j0, hj0, rfl⟩ := Option.map_eq_some'.mp h
      obtain ⟨hlt, hget⟩ := ih j0 hj0
      exact ⟨Nat.succ_lt_succ hlt, hget⟩

theorem removeDuplicatesGo_cons_some {V : Type} [LinearOrder V] {pool : List V}
    {v : V} {j : ℕ} (rest : List V) (hfind : findEquivIdx v pool = some j) :
    removeDuplicatesGo pool (v :: rest)
      = ((removeDuplicatesGo pool rest).1, j :: (removeDuplicatesGo pool rest).2) := by
  rw [removeDuplicatesGo, hfind]

theorem removeDuplicatesGo_cons_none {V : Type} [LinearOrder V] {pool : List V}
    {v : V} (rest : List V) (hfind : findEquivIdx v pool = none) :
    removeDuplicatesGo pool (v :: rest)
      = ((removeDuplicatesGo (pool ++ [v]) rest).1,
          pool.length :: (removeDuplicatesGo (pool ++ [v]) rest).2) := by
  rw [removeDuplicatesGo, hfind]

theorem removeDuplicatesGo_spec {V : Type} [LinearOrder V] (ins : List V) :
    ∀ pool : List V, pool.Nodup →
      (removeDuplicatesGo pool ins).1.Nodup
      ∧ (∃ t, (removeDuplicatesGo pool ins).1 = pool ++ t)
      ∧ (removeDuplicatesGo pool ins).2.length = ins.length
      ∧ ∀ k, k < ins.length →
          ∃ j, (removeDuplicatesGo pool ins).2.get? k = some j
            ∧ j < (removeDuplicatesGo pool ins).1.length
            ∧ (removeDuplicatesGo pool ins).1.get? j = ins.get? k := by
  induction ins with
  | nil =>
    intro pool hnd
    refine ⟨hnd, ⟨[], by simp [removeDuplicatesGo]⟩, rfl, ?_⟩
    intro k hk
    exact absurd hk (Nat.not_lt_zero k)
  | cons v rest ih =>
    intro pool hnd
    cases hfind : findEquivIdx v pool with
    | some j =>
      obtain ⟨hjp, hjv⟩ := findEquivIdx_some v pool j hfind
      obtain ⟨ih1, ⟨t, hpre⟩, ihlen, ihmap⟩ := ih pool hnd
      rw [removeDuplicatesGo_cons_some rest hfind]
      refine ⟨ih1, ⟨t, hpre⟩, by simp [ihlen], ?_⟩
      intro k hk
      cases k with
      | zero =>
        refine ⟨j, rfl, ?_, ?_⟩
        · rw [hpre, List.length_append]
          omega
        · rw [hpre, List.get?_append hjp, List.get?_eq_get hjp, hjv]
          rfl
      | succ k0 =>
        have hk0 : k0 < rest.length := Nat.lt_of_succ_lt_succ hk
        obtain ⟨j0, hget, hlt, hmap⟩ := ihmap k0 hk0
        exact ⟨j0, hget, hlt, hmap⟩
    | none =>
      have hvp : v ∉ pool := (findEquivIdx_none v pool).mp hfind
      have hnd2 : (pool ++ [v]).Nodup := by
        rw [List.nodup_append]
        exact ⟨hnd, List.nodup_singleton v, by simpa using hvp⟩
      obtain ⟨ih1, ⟨t, hpre⟩, ihlen, ihmap⟩ := ih (pool ++ [v]) hnd2
      rw [removeDuplicatesGo_cons_none rest hfind]
      refine ⟨ih1, ⟨v :: t, by rw [hpre, List.append_assoc]; rfl⟩,
        by simp [ihlen], ?_⟩
      intro k hk
      cases k with
      | zero =>
        have hplen : pool.length < (pool ++ [v]).length := by simp
        refine ⟨pool.length, rfl, ?_, ?_⟩
        · rw [hpre, List.length_append]
          omega
        · rw [hpre, List.get?_append hplen, List.get?_concat_length]
          rfl
      | succ k0 =>
        have hk0 : k0 < rest.length := Nat.lt_of_succ_lt_succ hk
        obtain ⟨j0, hget, hlt, hmap⟩ := ihmap k0 hk0
        exact ⟨j0, hget, hlt, hmap⟩

/-- Claim C9: for every non-empty input vertex list whose length is a multiple
of 3, over a vertex type with a strict total order,
UniqueVerticesTriangles::GenerateIndexedTriangles produces an output index list
of the same length as the input vertex list, every output index in range
[0, outVertices.size()), an output vertex pool whose entries are pairwise
distinct under the order, and for every position i the output vertex
outVertices[outIndices[i]] is order-equivalent to the input vertex
inVertices[i] (each duplicate is remapped to the index of its first
occurrence). -/
theorem generateIndexedTriangles_spec {V : Type} [LinearOrder V]
    (inVertices : List V) (hpos : inVertices ≠ [])
    (hmul : inVertices.length % 3 = 0) :
    ∃ outVertices outIndices,
      generateIndexedTriangles inVertices = some (outVertices, outIndices)
      ∧ outIndices.length = inVertices.length
      ∧ (∀ j ∈ outIndices, j < outVertices.length)
      ∧ outVertices.Nodup
      ∧ ∀ k (hk : k < inVertices.length),
          ∃ hj : k < outIndices.length,
          ∃ hv : outIndices.get ⟨k, hj⟩ < outVertices.length,
            outVertices.get ⟨outIndices.get ⟨k, hj⟩, hv⟩ = inVertices.get ⟨k, hk⟩ := by
  have hspec := removeDuplicatesGo_spec inVertices [] List.nodup_nil
  rw [show removeDuplicatesGo ([] : List V) inVertices
      = removeDuplicates inVertices from rfl] at hspec
  obtain ⟨h1, _, hlen, hmap⟩ := hspec
  have hguard : inVertices.length > 0 ∧ inVertices.length % 3 = 0 :=
    ⟨List.length_pos.mpr hpos, hmul⟩
  have hmain : ∀ k (hk : k < inVertices.length),
      ∃ hj : k < (removeDuplicates inVertices).2.length,
      ∃ hv : (removeDuplicates inVertices).2.get ⟨k, hj⟩
          < (removeDuplicates inVertices).1.length,
        (removeDuplicates inVertices).1.get
            ⟨(removeDuplicates inVertices).2.get ⟨k, hj⟩, hv⟩
          = inVertices.get ⟨k, hk⟩ := by
    intro k hk
    obtain ⟨j, hget, hlt, hmapk⟩ := hmap k hk
    have hj : k < (removeDuplicates inVertices).2.length := by
      rw [hlen]
      exact hk
    have hjval : (removeDuplicates inVertices).2.get ⟨k, hj⟩ = j := by
      have := List.get?_eq_get hj
      rw [hget] at this
      exact (Option.some_inj.mp this).symm
    refine ⟨hj, ?_, ?_⟩
    · rw [hjval]
      exact hlt
    · have hv2 : (removeDuplicates inVertices).2.get ⟨k, hj⟩
          < (removeDuplicates inVertices).1.length := by
        rw [hjval]
        exact hlt
      have h5 : (removeDuplicates inVertices).1.get?
            ((removeDuplicates inVertices).2.get ⟨k, hj⟩)
          = some ((removeDuplicates inVertices).1.get
              ⟨(removeDuplicates inVertices).2.get ⟨k, hj⟩, hv2⟩) :=
        List.get?_eq_get hv2
      have h7 : (removeDuplicates inVertices).1.get?
            ((removeDuplicates inVertices).2.get ⟨k, hj⟩)
          = some (inVertices.get ⟨k, hk⟩) := by
        rw [hjval, hmapk]
        exact List.get?_eq_get hk
      exact Option.some_inj.mp (h5.symm.trans h7)
  refine ⟨(removeDuplicates inVertices).1, (removeDuplicates inVertices).2,
    by simp [generateIndexedTriangles, hguard], hlen, ?_, h1, hmain⟩
  intro j hj
  obtain ⟨⟨k, hk⟩, rfl⟩ := List.mem_iff_get.mp hj
  have hk2 : k < inVertices.length := by
    rw [← hlen]
    exact hk
  obtain ⟨hj2, hv, _⟩ := hmain k hk2
  exact hv

/-- Witness for C9 at the input list [1, 2, 1] over the natural numbers. -/
theorem generateIndexedTriangles_spec_witness :
    ∃ outVertices outIndices,
      generateIndexedTriangles [1, 2, 1] = some (outVertices, outIndices)
      ∧ outIndices.length = ([1, 2, 1] : List ℕ).length
      ∧ (∀ j ∈ outIndices, j < outVertices.length)
      ∧ outVertices.Nodup
      ∧ ∀ k (hk : k < ([1, 2, 1] : List ℕ).length),
          ∃ hj : k < outIndices.length,
          ∃ hv : outIndices.get ⟨k, hj⟩ < outVertices.length,
            outVertices.get ⟨outIndices.get ⟨k, hj⟩, hv⟩
              = ([1, 2, 1] : List ℕ).get ⟨k, hk⟩ :=
  generateIndexedTriangles_spec [1, 2, 1] (by decide) (by decide)

end UniqueVerticesTriangles

end gte
